import Mathlib

/-!
Verification of the mark-resolution and dual-backend rendering engine of
`embedding-atlas` (packages/viewer/src/charts/spec/).

The behavioral code is embedded from:
  - `layer_helper.ts` (resolvers, dimension modifier, line grouping,
    interpolation selection, path builders, style resolvers),
  - `Layer.svelte` / `createElements` (retained-mode renderer),
  - `LayerCanvas.svelte` / `draw` (immediate-mode renderer).

JavaScript numbers are modelled as `JSNum`: an exact rational together
with the non-finite values `NaN`, `Infinity` and `-Infinity`. Finite
arithmetic is exact (IEEE rounding is abstracted away); the special
values follow the IEEE rules for the operations the code uses.
-/

set_option autoImplicit false

namespace EA

/-- Model of a JavaScript `number`: a finite exact value or one of the
three non-finite values. -/
inductive JSNum where
  | num (q : ℚ)
  | nan
  | inf
  | ninf
deriving DecidableEq, Repr

namespace JSNum

/-- JS `isFinite`. -/
def isFinite : JSNum → Bool
  | num _ => true
  | _ => false

/-- The finite value, with a junk default for non-finite inputs; only used
underneath an `isFinite` guard. -/
def toQ : JSNum → ℚ
  | num q => q
  | _ => 0

/-- IEEE negation. -/
def neg : JSNum → JSNum
  | num q => num (-q)
  | nan => nan
  | inf => ninf
  | ninf => inf

/-- IEEE addition (finite part exact). -/
def add : JSNum → JSNum → JSNum
  | nan, _ => nan
  | _, nan => nan
  | inf, ninf => nan
  | ninf, inf => nan
  | inf, _ => inf
  | _, inf => inf
  | ninf, _ => ninf
  | _, ninf => ninf
  | num a, num b => num (a + b)

/-- IEEE subtraction: `a - b = a + (-b)` holds exactly in IEEE. -/
def sub (a b : JSNum) : JSNum := a.add b.neg

/-- IEEE multiplication (finite part exact). -/
def mul : JSNum → JSNum → JSNum
  | nan, _ => nan
  | _, nan => nan
  | inf, inf => inf
  | inf, ninf => ninf
  | ninf, inf => ninf
  | ninf, ninf => inf
  | inf, num b => if 0 < b then inf else if b < 0 then ninf else nan
  | num a, inf => if 0 < a then inf else if a < 0 then ninf else nan
  | ninf, num b => if 0 < b then ninf else if b < 0 then inf else nan
  | num a, ninf => if 0 < a then ninf else if a < 0 then inf else nan
  | num a, num b => num (a * b)

/-- Division by the literal 2 (exact in IEEE). -/
def div2 : JSNum → JSNum
  | num q => num (q / 2)
  | nan => nan
  | inf => inf
  | ninf => ninf

/-- JS `Math.abs`. -/
def abs : JSNum → JSNum
  | num q => num |q|
  | nan => nan
  | inf => inf
  | ninf => inf

/-- JS `Math.min`: `NaN` if either argument is `NaN`. -/
def jmin : JSNum → JSNum → JSNum
  | nan, _ => nan
  | _, nan => nan
  | ninf, _ => ninf
  | _, ninf => ninf
  | inf, b => b
  | a, inf => a
  | num a, num b => num (min a b)

/-- JS `<` comparison: false whenever `NaN` is involved. -/
def lt : JSNum → JSNum → Bool
  | num a, num b => a < b
  | nan, _ => false
  | _, nan => false
  | ninf, ninf => false
  | ninf, _ => true
  | inf, _ => false
  | num _, inf => true
  | num _, ninf => false

end JSNum

/-- A positional axis, the index used for `proxy.scale[axis]` and
`data.columns[axis]`. -/
inductive Axis where
  | x
  | y
deriving DecidableEq, Repr

/-- The string name of an axis, for column lookups such as `axis + "1"`. -/
def Axis.name : Axis → String
  | .x => "x"
  | .y => "y"

/-- Modelled from the spec: a `DataTable` (runtime.ts is not in the
sources) maps channel names to value columns and carries a row count;
every present column has exactly `length` entries. Values are kept
abstract in `V`. -/
structure DataTable (V : Type) where
  columns : List (String × List V)
  length : ℕ

/-- Column lookup `data.columns[name]`. -/
def DataTable.col {V : Type} (data : DataTable V) (name : String) : Option (List V) :=
  List.lookup name data.columns

/-- The `Mapped<T>` lazy indexed-sequence interface of layer_helper.ts. -/
structure Mapped (T : Type) where
  length : ℕ
  atIndex : ℕ → T

/-- The `mapped` constructor over a column (the optional index-remap
argument is never supplied in this code, so it is omitted). Out-of-range
access yields the default element, mirroring the callers guaranteeing
`0 ≤ index < length`. -/
def mapped {T U : Type} [Inhabited T] (column : List T) (mapper : T → U) : Mapped U :=
  ⟨column.length, fun i => mapper (column.getD i default)⟩

/-- The `constant` constructor. -/
def constant {T : Type} (length : ℕ) (value : T) : Mapped T :=
  ⟨length, fun _ => value⟩

/-- Modelled from the spec: a positional or size scale exposing
`apply(value) → pixel` and `applyBand(value) → [pixel, pixel]`. -/
structure NumScale (V : Type) where
  apply : V → JSNum
  applyBand : V → JSNum × JSNum

/-- Modelled from the spec: the color scale maps a value to a color
string. -/
structure ColorScale (V : Type) where
  apply : V → String

/-- Modelled from the spec: the per-channel scale dictionary of the
`XYFrameProxy`; any scale may be absent. -/
structure ScaleDict (V : Type) where
  pos : Axis → Option (NumScale V)
  color : Option (ColorScale V)
  size : Option (NumScale V)

/-- Modelled from the spec: the `XYFrameProxy` with plot extents and the
scale dictionary. Plot extents are finite. -/
structure XYFrameProxy (V : Type) where
  plotWidth : ℚ
  plotHeight : ℚ
  scale : ScaleDict V

/-- Modelled from the spec: a theme is a named string lookup that must
define at least a default mark color. -/
structure ChartTheme where
  markColor : String
  tokens : String → Option String

/-- The `ResolveContext` of layer_helper.ts. -/
structure ResolveContext (V : Type) where
  proxy : XYFrameProxy V
  data : DataTable V
  theme : ChartTheme

/-- `resolvePoint` of layer_helper.ts: column and scale present means the
scaled column, otherwise a constant at half the plot extent. -/
def resolvePoint {V : Type} [Inhabited V] (rctx : ResolveContext V) (axis : Axis) :
    Mapped JSNum :=
  match rctx.data.col axis.name, rctx.proxy.scale.pos axis with
  | some column, some scale => mapped column scale.apply
  | _, _ =>
      constant rctx.data.length
        (JSNum.num (if axis = Axis.x then rctx.proxy.plotWidth / 2 else rctx.proxy.plotHeight / 2))

/-- Modelled from the spec: the `Dimension` type of spec.ts — a literal
width, `{gap, clampToRatio}`, or `{ratio}`. The values come from the
declarative (JSON) chart spec and are therefore finite. -/
inductive Dimension where
  | width (d : ℚ)
  | gap (gap : ℚ) (clampToRatio : Option ℚ)
  | ratio (r : ℚ)
deriving DecidableEq, Repr

/-- `dimensionModifier` of layer_helper.ts: band-shrinking policies on a
raw scaled interval. -/
def dimensionModifier (dimension : Option Dimension) :
    Option (JSNum × JSNum → JSNum × JSNum) :=
  match dimension with
  | some (Dimension.width d) =>
      let dv := d / 2
      some (fun p => (((p.1.add p.2).div2).sub (JSNum.num dv),
                      ((p.1.add p.2).div2).add (JSNum.num dv)))
  | some (Dimension.gap g clampToRatio) =>
      some (fun p =>
        let dv := JSNum.jmin (JSNum.num (g / 2))
          (((JSNum.num (clampToRatio.getD 0)).mul ((p.1.sub p.2).abs)).div2)
        if p.1.lt p.2 then (p.1.add dv, p.2.sub dv) else (p.1.sub dv, p.2.add dv))
  | some (Dimension.ratio r) =>
      let s := (1 - r) / 2
      some (fun p => (p.1.add ((p.2.sub p.1).mul (JSNum.num s)),
                      p.2.add ((p.1.sub p.2).mul (JSNum.num s))))
  | none => none

/-- `resolveBand` of layer_helper.ts: single banded column, endpoint
column pair, or the full-extent constant, each optionally transformed by
the dimension modifier. -/
def resolveBand {V : Type} [Inhabited V] (rctx : ResolveContext V) (axis : Axis)
    (dimension : Option Dimension) : Mapped (JSNum × JSNum) :=
  let modifier := dimensionModifier dimension
  match rctx.data.col axis.name, rctx.proxy.scale.pos axis with
  | some column, some scale =>
      match modifier with
      | some m => mapped column (fun v => m (scale.applyBand v))
      | none => mapped column scale.applyBand
  | _, _ =>
      match rctx.data.col (axis.name ++ "1"), rctx.data.col (axis.name ++ "2"),
            rctx.proxy.scale.pos axis with
      | some c1, some c2, some scale =>
          match modifier with
          | some m =>
              ⟨c1.length, fun i => m (scale.apply (c1.getD i default),
                                      scale.apply (c2.getD i default))⟩
          | none =>
              ⟨c1.length, fun i => (scale.apply (c1.getD i default),
                                    scale.apply (c2.getD i default))⟩
      | _, _, _ =>
          constant rctx.data.length
            (if axis = Axis.x then (JSNum.num 0, JSNum.num rctx.proxy.plotWidth)
             else (JSNum.num 0, JSNum.num rctx.proxy.plotHeight))

/-- `resolveColor` of layer_helper.ts. -/
def resolveColor {V : Type} [Inhabited V] (rctx : ResolveContext V) : Mapped String :=
  match rctx.data.col "color", rctx.proxy.scale.color with
  | some column, some scale => mapped column scale.apply
  | _, _ => constant rctx.data.length rctx.theme.markColor

/-- `resolveSize` of layer_helper.ts. -/
def resolveSize {V : Type} [Inhabited V] (rctx : ResolveContext V)
    (defaultValue : Option ℚ) : Mapped JSNum :=
  match rctx.data.col "size", rctx.proxy.scale.size with
  | some column, some scale => mapped column scale.apply
  | _, _ => constant rctx.data.length (JSNum.num (defaultValue.getD 100))

/-- The channel names grouped on by `lineData`: every column key except
`x` and `y`, in column (insertion) order, as `Object.keys` preserves it. -/
def groupChannels {V : Type} (data : DataTable V) : List String :=
  (data.columns.map Prod.fst).filter (fun k => k != "x" && k != "y")

/-- The tuple of a row's values over the grouped channels, i.e. the array
passed to `JSON.stringify` when `lineData` builds the group key. -/
def rowTuple {V : Type} [Inhabited V] (data : DataTable V) (i : ℕ) : List V :=
  (groupChannels data).map (fun k => ((data.col k).getD []).getD i default)

/-- One step of the JS `Map` update in `lineData`: find the entry with the
given key and push the index, or append a fresh singleton group. JS `Map`
preserves insertion order, modelled by an ordered association list. -/
def insertRow {K : Type} [DecidableEq K] (m : List (K × List ℕ)) (key : K) (i : ℕ) :
    List (K × List ℕ) :=
  match m with
  | [] => [(key, [i])]
  | (k, g) :: rest =>
      if k = key then (k, g ++ [i]) :: rest else (k, g) :: insertRow rest key i

/-- `lineData` of layer_helper.ts, parameterized by the serialization
`stringify` that models `JSON.stringify` on the value tuple (JSON texts
are self-delimiting, so serializing the array is determined by the
serialized tuple). Returns the groups in key insertion order. -/
def lineData {V : Type} [Inhabited V] (stringify : List V → String)
    (data : DataTable V) : List (List ℕ) :=
  ((List.range data.length).foldl
    (fun m i => insertRow m (stringify (rowTuple data i)) i) []).map Prod.snd

/-- The concrete curve algorithms selected by `resolveInterpolate`
(d3-shape curve factories, kept abstract). -/
inductive CurveKind where
  | linear
  | basis
  | natural
  | step
  | stepBefore
  | stepAfter
  | catmullRom
  | cardinal
  | monotoneX
  | monotoneY
deriving DecidableEq, Repr

/-- Line and area orientation. -/
inductive Orientation where
  | horizontal
  | vertical
deriving DecidableEq, Repr

/-- `resolveInterpolate` of layer_helper.ts. The second component records
whether the default branch emitted its `console.warn` diagnostic; the
function itself is total and never throws. -/
def resolveInterpolate (value : String) (orientation : Orientation) :
    CurveKind × Bool :=
  match value with
  | "monotone" =>
      if orientation = Orientation.horizontal then (CurveKind.monotoneY, false)
      else (CurveKind.monotoneX, false)
  | "basis" => (CurveKind.basis, false)
  | "natural" => (CurveKind.natural, false)
  | "step" => (CurveKind.step, false)
  | "step-before" => (CurveKind.stepBefore, false)
  | "step-after" => (CurveKind.stepAfter, false)
  | "catmull-rom" => (CurveKind.catmullRom, false)
  | "cardinal" => (CurveKind.cardinal, false)
  | "linear" => (CurveKind.linear, false)
  | _ => (CurveKind.linear, true)

/-- The five mark primitives. -/
inductive Primitive where
  | rect
  | point
  | rule
  | line
  | area
deriving DecidableEq, Repr

/-- Modelled from the spec: the `MarkStyle` of spec.ts — numeric and enum
fields plus the two color fields, each of which may be absent (`null` or
`undefined`, both collapsed to `none`). -/
structure MarkStyle where
  strokeWidth : Option ℚ
  strokeCap : Option String
  strokeJoin : Option String
  strokeOpacity : Option ℚ
  fillOpacity : Option ℚ
  paintOrder : Option String
  opacity : Option ℚ
  fillColor : Option String
  strokeColor : Option String
deriving DecidableEq, Repr

/-- Modelled from the spec: `LayerOutputs` of runtime.ts — the primitive,
the data slice, the style, and the primitive-specific parameters. -/
structure LayerOutputs (V : Type) where
  primitive : Primitive
  data : DataTable V
  style : MarkStyle
  xDimension : Option Dimension
  yDimension : Option Dimension
  pointSize : Option ℚ
  orientation : Option Orientation
  interpolate : String

/-- The index list fed by `linePath` to the d3 line generator: indices
with finite `x` and `y`, stably sorted ascending by `x` (JS `sort` with
the comparator `x.at(ai) - x.at(bi)` is stable and, on the already
finite values, orders by `x`). -/
def linePathPoints {V : Type} [Inhabited V] (rctx : ResolveContext V)
    (indices : List ℕ) : List ℕ :=
  let x := resolvePoint rctx Axis.x
  let y := resolvePoint rctx Axis.y
  (indices.filter (fun i => (x.atIndex i).isFinite && (y.atIndex i).isFinite)).mergeSort
    (fun ai bi => decide ((x.atIndex ai).toQ ≤ (x.atIndex bi).toQ))

/-- The geometry of the path built by `linePath`: the chosen curve and the
finite point coordinates, in emission order. -/
def linePathGeom {V : Type} [Inhabited V] (rctx : ResolveContext V)
    (indices : List ℕ) (layer : LayerOutputs V) : CurveKind × List (ℚ × ℚ) :=
  let orientation := layer.orientation.getD Orientation.vertical
  let x := resolvePoint rctx Axis.x
  let y := resolvePoint rctx Axis.y
  ((resolveInterpolate layer.interpolate orientation).1,
    (linePathPoints rctx indices).map (fun i => ((x.atIndex i).toQ, (y.atIndex i).toQ)))

/-- The index list fed by `areaPath` to the d3 area generator, for each
orientation: finite rows, stably sorted by the point axis. -/
def areaPathPoints {V : Type} [Inhabited V] (rctx : ResolveContext V)
    (indices : List ℕ) (layer : LayerOutputs V) : List ℕ :=
  match layer.orientation.getD Orientation.vertical with
  | Orientation.vertical =>
      let x := resolvePoint rctx Axis.x
      let y := resolveBand rctx Axis.y none
      (indices.filter (fun i => (x.atIndex i).isFinite && (y.atIndex i).1.isFinite
          && (y.atIndex i).2.isFinite)).mergeSort
        (fun ai bi => decide ((x.atIndex ai).toQ ≤ (x.atIndex bi).toQ))
  | Orientation.horizontal =>
      let x := resolveBand rctx Axis.x none
      let y := resolvePoint rctx Axis.y
      (indices.filter (fun i => (y.atIndex i).isFinite && (x.atIndex i).1.isFinite
          && (x.atIndex i).2.isFinite)).mergeSort
        (fun ai bi => decide ((y.atIndex ai).toQ ≤ (y.atIndex bi).toQ))

/-- Path geometry emitted by the path builders: a line through points, or
an area between band boundaries (vertical: `(x, y0, y1)` per point;
horizontal: `(y, x0, x1)` per point). -/
inductive PathGeom where
  | line (pts : List (ℚ × ℚ))
  | areaV (pts : List (ℚ × ℚ × ℚ))
  | areaH (pts : List (ℚ × ℚ × ℚ))
deriving DecidableEq, Repr

/-- Whether a path geometry has no points (a d3 generator returns `null`,
and a canvas fill or stroke paints nothing, exactly in this case). -/
def PathGeom.isEmptyGeom : PathGeom → Bool
  | PathGeom.line pts => pts.isEmpty
  | PathGeom.areaV pts => pts.isEmpty
  | PathGeom.areaH pts => pts.isEmpty

/-- The geometry of the path built by `areaPath`. -/
def areaPathGeom {V : Type} [Inhabited V] (rctx : ResolveContext V)
    (indices : List ℕ) (layer : LayerOutputs V) : CurveKind × PathGeom :=
  let orientation := layer.orientation.getD Orientation.vertical
  let curve := (resolveInterpolate layer.interpolate orientation).1
  match orientation with
  | Orientation.vertical =>
      let x := resolvePoint rctx Axis.x
      let y := resolveBand rctx Axis.y none
      (curve, PathGeom.areaV ((areaPathPoints rctx indices layer).map
        (fun i => ((x.atIndex i).toQ, (y.atIndex i).1.toQ, (y.atIndex i).2.toQ))))
  | Orientation.horizontal =>
      let x := resolveBand rctx Axis.x none
      let y := resolvePoint rctx Axis.y
      (curve, PathGeom.areaH ((areaPathPoints rctx indices layer).map
        (fun i => ((y.atIndex i).toQ, (x.atIndex i).1.toQ, (x.atIndex i).2.toQ))))

/-- The shared `maybeConstColor` token resolution of layer_helper.ts:
absent means no paint (`"none"`), `"$encoding"` is deferred (`none` here),
a `"$"`-prefixed token is looked up in the theme with the literal as
fallback, anything else is used verbatim. -/
def maybeConstColor (theme : ChartTheme) (value : Option String) : Option String :=
  match value with
  | none => some "none"
  | some v =>
      if v = "$encoding" then none
      else if v.startsWith "$" then some ((theme.tokens (v.drop 1)).getD v)
      else some v

/-- The attribute bag produced by `resolveStyle` for one row (the SVG
attributes set on a retained-mode element). -/
structure AttrBag where
  strokeWidth : Option ℚ
  strokeCap : Option String
  strokeJoin : Option String
  strokeOpacity : Option ℚ
  fillOpacity : Option ℚ
  paintOrder : Option String
  opacity : Option ℚ
  fill : Option String
  stroke : Option String
deriving DecidableEq, Repr

/-- `resolveStyle` of layer_helper.ts: constant attributes merged with the
per-row encoded fill and stroke. -/
def resolveStyle {V : Type} [Inhabited V] (rctx : ResolveContext V)
    (style : MarkStyle) : Mapped AttrBag :=
  let color := resolveColor rctx
  let consts : AttrBag :=
    { strokeWidth := style.strokeWidth
      strokeCap := style.strokeCap
      strokeJoin := style.strokeJoin
      strokeOpacity := style.strokeOpacity
      fillOpacity := style.fillOpacity
      paintOrder := style.paintOrder
      opacity := style.opacity
      fill := maybeConstColor rctx.theme style.fillColor
      stroke := maybeConstColor rctx.theme style.strokeColor }
  ⟨rctx.data.length, fun index =>
    let r := consts
    let r := if style.fillColor = some "$encoding"
             then { r with fill := some (color.atIndex index) } else r
    let r := if style.strokeColor = some "$encoding"
             then { r with stroke := some (color.atIndex index) } else r
    r⟩

/-- The mutable 2D-context state touched by `resolveCanvasStyle`. -/
structure CanvasState where
  lineWidth : ℚ
  lineCap : String
  lineJoin : String
  globalAlpha : ℚ
  fillStyle : Option String
  strokeStyle : Option String
deriving DecidableEq, Repr

/-- The context state after `ctx.reset()` (canvas defaults). -/
def initialCanvasState : CanvasState :=
  { lineWidth := 1, lineCap := "butt", lineJoin := "miter", globalAlpha := 1,
    fillStyle := some "#000000", strokeStyle := some "#000000" }

/-- The `prepare` closure of `resolveCanvasStyle`: set the constant,
index-independent state once; a fill or stroke color is only assigned
when its token resolves to a constant. -/
def canvasPrepare {V : Type} [Inhabited V] (rctx : ResolveContext V)
    (style : MarkStyle) (s : CanvasState) : CanvasState :=
  let constFillColor := maybeConstColor rctx.theme style.fillColor
  let constStrokeColor := maybeConstColor rctx.theme style.strokeColor
  { s with
    lineWidth := style.strokeWidth.getD 1
    lineCap := style.strokeCap.getD "butt"
    lineJoin := style.strokeJoin.getD "bevel"
    globalAlpha := style.opacity.getD 1
    fillStyle := match constFillColor with
      | some c => some c
      | none => s.fillStyle
    strokeStyle := match constStrokeColor with
      | some c => some c
      | none => s.strokeStyle }

/-- A paint operation performed by the `draw` closure: `ctx.fill()` or
`ctx.stroke()` on the current path, recording the color and global alpha
in effect at that moment. -/
inductive PaintOp where
  | fill (color : Option String) (alpha : ℚ)
  | stroke (color : Option String) (alpha : ℚ)
deriving DecidableEq, Repr

/-- The alpha a paint operation was performed with. -/
def PaintOp.alpha : PaintOp → ℚ
  | PaintOp.fill _ a => a
  | PaintOp.stroke _ a => a

/-- The `draw` closure of `resolveCanvasStyle`, as a state transformer:
assign encoded colors for this row, then fill and stroke in the order
dictated by `paintOrder`, skipping an operation when its color token is
absent or its alpha is not positive. Returns the new context state and
the performed paint operations in order. -/
def canvasDrawStep {V : Type} [Inhabited V] (rctx : ResolveContext V)
    (style : MarkStyle) (s : CanvasState) (index : ℕ) :
    CanvasState × List PaintOp :=
  let color := resolveColor rctx
  let s1 := if style.fillColor = some "$encoding"
            then { s with fillStyle := some (color.atIndex index) } else s
  let s2 := if style.strokeColor = some "$encoding"
            then { s1 with strokeStyle := some (color.atIndex index) } else s1
  let fillAlpha := style.opacity.getD 1 * style.fillOpacity.getD 1
  let strokeAlpha := style.opacity.getD 1 * style.strokeOpacity.getD 1
  let fillFirst := style.paintOrder != some "stroke fill"
  let fillOps : List PaintOp :=
    if style.fillColor.isSome && decide (0 < fillAlpha)
    then [PaintOp.fill s2.fillStyle fillAlpha] else []
  let strokeOps : List PaintOp :=
    if style.strokeColor.isSome && decide (0 < strokeAlpha)
    then [PaintOp.stroke s2.strokeStyle strokeAlpha] else []
  let ops := if fillFirst then fillOps ++ strokeOps else strokeOps ++ fillOps
  ({ s2 with globalAlpha := ops.foldl (fun _ op => op.alpha) s2.globalAlpha }, ops)

/-- A geometric primitive emitted by either backend, at resolved (finite)
pixel coordinates. The circle radius is `sqrtDivPi size`, where
`sqrtDivPi` abstracts the real-valued `Math.sqrt(size / Math.PI)`. -/
inductive RenderPrim where
  | rect (x y w h : ℚ)
  | circle (cx cy : ℚ) (r : JSNum)
  | ruleLine (x1 y1 x2 y2 : ℚ)
  | path (curve : CurveKind) (geom : PathGeom)
deriving DecidableEq, Repr

/-- Whether a primitive paints anything: a path with no points paints
nothing (and the retained backend receives `null` from d3 for it and
skips the element); anything else is visible. -/
def RenderPrim.visible : RenderPrim → Bool
  | RenderPrim.path _ geom => !geom.isEmptyGeom
  | _ => true

/-- One visual node emitted by the retained-mode renderer: the geometry
attributes and the style attribute bag, tagged with the row (or group
head) index the style was resolved at. -/
structure SVGOut where
  index : ℕ
  prim : RenderPrim
  attrs : AttrBag
deriving DecidableEq, Repr

/-- One path-and-paint unit of the immediate-mode renderer: the path
built between `beginPath` and `style.draw`, the index `style.draw` was
called with, and the paint operations it performed. -/
structure CanvasOut where
  index : ℕ
  prim : RenderPrim
  ops : List PaintOp
deriving DecidableEq, Repr

/-- The per-item loop of the immediate-mode renderer, threading the
context state: a filtered-out row draws nothing and leaves the state
untouched; an emitted geometry is followed by one `style.draw` call. -/
def canvasRunAux {V : Type} [Inhabited V] (rctx : ResolveContext V)
    (style : MarkStyle) (s : CanvasState) :
    List (Option RenderPrim × ℕ) → List CanvasOut
  | [] => []
  | (none, _) :: rest => canvasRunAux rctx style s rest
  | (some g, i) :: rest =>
      let step := canvasDrawStep rctx style s i
      ⟨i, g, step.2⟩ :: canvasRunAux rctx style step.1 rest

/-- Run the immediate-mode loop: `style.prepare` once on the fresh
context, then the items in order. -/
def canvasRun {V : Type} [Inhabited V] (rctx : ResolveContext V)
    (style : MarkStyle) (items : List (Option RenderPrim × ℕ)) : List CanvasOut :=
  canvasRunAux rctx style (canvasPrepare rctx style initialCanvasState) items

/-- `createElements` of Layer.svelte (retained-mode renderer). For each
primitive it resolves the encodings, walks the rows (or the groups from
`lineData`), drops rows with a non-finite required coordinate, and emits
one SVG node per surviving row or per non-null path. On the values that
passed the `isFinite` guard, `Math.min` and `Math.abs` coincide with the
exact rational operations. `sqrtDivPi` abstracts the real function
`s ↦ Math.sqrt(s / Math.PI)`; `stringify` abstracts `JSON.stringify` on
a value tuple. -/
def createElements {V : Type} [Inhabited V] (stringify : List V → String)
    (sqrtDivPi : ℚ → JSNum) (rctx : ResolveContext V) (layer : LayerOutputs V) :
    List SVGOut :=
  match layer.primitive with
  | Primitive.rect =>
      let x := resolveBand rctx Axis.x layer.xDimension
      let y := resolveBand rctx Axis.y layer.yDimension
      let attrs := resolveStyle rctx layer.style
      (List.range layer.data.length).filterMap (fun i =>
        if (x.atIndex i).1.isFinite && (x.atIndex i).2.isFinite
            && (y.atIndex i).1.isFinite && (y.atIndex i).2.isFinite then
          some ⟨i,
            RenderPrim.rect (min (x.atIndex i).1.toQ (x.atIndex i).2.toQ)
              (min (y.atIndex i).1.toQ (y.atIndex i).2.toQ)
              |(x.atIndex i).2.toQ - (x.atIndex i).1.toQ|
              |(y.atIndex i).2.toQ - (y.atIndex i).1.toQ|,
            attrs.atIndex i⟩
        else none)
  | Primitive.point =>
      let x := resolvePoint rctx Axis.x
      let y := resolvePoint rctx Axis.y
      let size := resolveSize rctx layer.pointSize
      let attrs := resolveStyle rctx layer.style
      (List.range layer.data.length).filterMap (fun i =>
        if (x.atIndex i).isFinite && (y.atIndex i).isFinite
            && (size.atIndex i).isFinite then
          some ⟨i,
            RenderPrim.circle (x.atIndex i).toQ (y.atIndex i).toQ
              (sqrtDivPi (size.atIndex i).toQ),
            attrs.atIndex i⟩
        else none)
  | Primitive.rule =>
      let x := resolveBand rctx Axis.x layer.xDimension
      let y := resolveBand rctx Axis.y layer.yDimension
      let attrs := resolveStyle rctx layer.style
      (List.range layer.data.length).filterMap (fun i =>
        if (x.atIndex i).1.isFinite && (x.atIndex i).2.isFinite
            && (y.atIndex i).1.isFinite && (y.atIndex i).2.isFinite then
          some ⟨i,
            RenderPrim.ruleLine (x.atIndex i).1.toQ (y.atIndex i).1.toQ
              (x.atIndex i).2.toQ (y.atIndex i).2.toQ,
            attrs.atIndex i⟩
        else none)
  | Primitive.line =>
      let attrs := resolveStyle rctx layer.style
      (lineData stringify layer.data).filterMap (fun ids =>
        if ((linePathGeom rctx ids layer).2).isEmpty then none
        else some ⟨ids.headD 0,
          RenderPrim.path (linePathGeom rctx ids layer).1
            (PathGeom.line (linePathGeom rctx ids layer).2),
          attrs.atIndex (ids.headD 0)⟩)
  | Primitive.area =>
      let attrs := resolveStyle rctx layer.style
      (lineData stringify layer.data).filterMap (fun ids =>
        if ((areaPathGeom rctx ids layer).2).isEmptyGeom then none
        else some ⟨ids.headD 0,
          RenderPrim.path (areaPathGeom rctx ids layer).1 (areaPathGeom rctx ids layer).2,
          attrs.atIndex (ids.headD 0)⟩)

/-- `draw` of LayerCanvas.svelte (immediate-mode renderer). The same
per-primitive resolution and finiteness filtering as the retained
backend, but painting each path into the shared context via the
`prepare`/`draw` closures of `resolveCanvasStyle`. A `line`/`area` group
always gets its `beginPath`/`style.draw` pair, even when every point was
filtered out (painting an empty path shows nothing). -/
def draw {V : Type} [Inhabited V] (stringify : List V → String)
    (sqrtDivPi : ℚ → JSNum) (rctx : ResolveContext V) (layer : LayerOutputs V) :
    List CanvasOut :=
  match layer.primitive with
  | Primitive.rect =>
      let x := resolveBand rctx Axis.x layer.xDimension
      let y := resolveBand rctx Axis.y layer.yDimension
      canvasRun rctx layer.style ((List.range layer.data.length).map (fun i =>
        (if (x.atIndex i).1.isFinite && (x.atIndex i).2.isFinite
            && (y.atIndex i).1.isFinite && (y.atIndex i).2.isFinite then
          some (RenderPrim.rect (min (x.atIndex i).1.toQ (x.atIndex i).2.toQ)
            (min (y.atIndex i).1.toQ (y.atIndex i).2.toQ)
            |(x.atIndex i).2.toQ - (x.atIndex i).1.toQ|
            |(y.atIndex i).2.toQ - (y.atIndex i).1.toQ|)
        else none, i)))
  | Primitive.point =>
      let x := resolvePoint rctx Axis.x
      let y := resolvePoint rctx Axis.y
      let size := resolveSize rctx layer.pointSize
      canvasRun rctx layer.style ((List.range layer.data.length).map (fun i =>
        (if (x.atIndex i).isFinite && (y.atIndex i).isFinite
            && (size.atIndex i).isFinite then
          some (RenderPrim.circle (x.atIndex i).toQ (y.atIndex i).toQ
            (sqrtDivPi (size.atIndex i).toQ))
        else none, i)))
  | Primitive.rule =>
      let x := resolveBand rctx Axis.x layer.xDimension
      let y := resolveBand rctx Axis.y layer.yDimension
      canvasRun rctx layer.style ((List.range layer.data.length).map (fun i =>
        (if (x.atIndex i).1.isFinite && (x.atIndex i).2.isFinite
            && (y.atIndex i).1.isFinite && (y.atIndex i).2.isFinite then
          some (RenderPrim.ruleLine (x.atIndex i).1.toQ (y.atIndex i).1.toQ
            (x.atIndex i).2.toQ (y.atIndex i).2.toQ)
        else none, i)))
  | Primitive.line =>
      canvasRun rctx layer.style ((lineData stringify layer.data).map (fun ids =>
        (some (RenderPrim.path (linePathGeom rctx ids layer).1
          (PathGeom.line (linePathGeom rctx ids layer).2)), ids.headD 0)))
  | Primitive.area =>
      canvasRun rctx layer.style ((lineData stringify layer.data).map (fun ids =>
        (some (RenderPrim.path (areaPathGeom rctx ids layer).1
          (areaPathGeom rctx ids layer).2), ids.headD 0)))

/-- Keys of a list in order of first occurrence, with an accumulator of
keys already seen (specification device for the JS `Map` insertion
order). -/
def firstSeenAux {K : Type} [DecidableEq K] (acc : List K) : List K → List K
  | [] => acc
  | k :: rest => firstSeenAux (if k ∈ acc then acc else acc ++ [k]) rest

/-- Keys of a list in order of first occurrence. -/
def firstSeen {K : Type} [DecidableEq K] (l : List K) : List K :=
  firstSeenAux [] l

/-- The canonical grouped form of a processed index list under a key
function: one entry per key in first-seen order, holding the indices with
that key in list order. -/
def groupsOf {K : Type} [DecidableEq K] (κ : ℕ → K) (idxs : List ℕ) :
    List (K × List ℕ) :=
  (firstSeen (idxs.map κ)).map (fun k => (k, idxs.filter (fun j => decide (κ j = k))))

/-- Concrete serialization for witness instances: one character per tuple
entry, distinguishing zero from nonzero. -/
def exStringify : List ℚ → String :=
  fun l => String.mk (l.map (fun q => if q = 0 then 'a' else 'b'))

/-- Concrete table with a non-positional `cat` channel: rows
`(x: 1, cat: 0), (x: 2, cat: 0), (x: 1, cat: 1)`. -/
def lineTable : DataTable ℚ := ⟨[("x", [1, 2, 1]), ("cat", [0, 0, 1])], 3⟩

/-- Concrete table with only `x` and `y` channels. -/
def xyTable : DataTable ℚ := ⟨[("x", [1, 2, 1]), ("y", [5, 6, 7])], 3⟩

/-- Concrete table with a varying `color` channel. -/
def colorTable : DataTable ℚ := ⟨[("color", [0, 1])], 2⟩

/-- A concrete positional scale for witnesses: point mapping is the
identity, the band is a fixed reversed interval. -/
def idNumScale : NumScale ℚ :=
  ⟨fun v => JSNum.num v, fun _ => (JSNum.num 10, JSNum.num 3)⟩

/-- A concrete color scale that maps every value to the same color. -/
def constColorScale : ColorScale ℚ := ⟨fun _ => "red"⟩

/-- A concrete proxy for witnesses. -/
def exProxy : XYFrameProxy ℚ :=
  ⟨100, 50, ⟨fun _ => some idNumScale, some constColorScale, some idNumScale⟩⟩

/-- A concrete theme for witnesses. -/
def exTheme : ChartTheme := ⟨"black", fun _ => none⟩

/-- A concrete style whose fill color is the `"$encoding"` sentinel. -/
def encStyle : MarkStyle :=
  ⟨some 1, none, none, none, none, none, none, some "$encoding", none⟩

/-- Concrete resolve context over the color table. -/
def colorCtx : ResolveContext ℚ := ⟨exProxy, colorTable, exTheme⟩

/-- A concrete stand-in for `Math.sqrt(s / Math.PI)` in witnesses. -/
def exSqrt : ℚ → JSNum := fun q => JSNum.num q

/-- Concrete resolve context over the `x`/`y` table. -/
def xyCtx : ResolveContext ℚ := ⟨exProxy, xyTable, exTheme⟩

/-- Concrete rect layer over the `x`/`y` table. -/
def rectLayer : LayerOutputs ℚ :=
  ⟨Primitive.rect, xyTable, encStyle, none, none, none, none, "linear"⟩

/-- Concrete resolve context over the grouped table. -/
def lineCtx : ResolveContext ℚ := ⟨exProxy, lineTable, exTheme⟩

/-- Concrete line layer over the grouped table. -/
def lineLayer : LayerOutputs ℚ :=
  ⟨Primitive.line, lineTable, encStyle, none, none, none, none, "linear"⟩

/-- The raw `color` column entry of a row (the value fed to the color
scale when the column and scale are present). -/
def colorValue {V : Type} [Inhabited V] (rctx : ResolveContext V) (i : ℕ) : V :=
  ((rctx.data.col "color").getD []).getD i default

theorem firstSeenAux_append {K : Type} [DecidableEq K] (l : List K) :
    ∀ (acc : List K) (k : K),
      firstSeenAux acc (l ++ [k])
        = (if k ∈ firstSeenAux acc l then firstSeenAux acc l
           else firstSeenAux acc l ++ [k]) := by
  induction l with
  | nil => intro acc k; rfl
  | cons a l ih =>
      intro acc k
      simp only [List.cons_append, firstSeenAux]
      exact ih _ k

theorem mem_firstSeenAux {K : Type} [DecidableEq K] (l : List K) :
    ∀ (acc : List K) (a : K), a ∈ firstSeenAux acc l ↔ a ∈ acc ∨ a ∈ l := by
  induction l with
  | nil => intro acc a; simp [firstSeenAux]
  | cons b l ih =>
      intro acc a
      simp only [firstSeenAux, ih]
      by_cases hb : b ∈ acc
      · simp only [if_pos hb, List.mem_cons]
        constructor
        · rintro (h | h)
          · exact Or.inl h
          · exact Or.inr (Or.inr h)
        · rintro (h | rfl | h)
          · exact Or.inl h
          · exact Or.inl hb
          · exact Or.inr h
      · simp only [if_neg hb, List.mem_append, List.mem_singleton, List.mem_cons]
        tauto

theorem nodup_firstSeenAux {K : Type} [DecidableEq K] (l : List K) :
    ∀ (acc : List K), acc.Nodup → (firstSeenAux acc l).Nodup := by
  induction l with
  | nil => intro acc h; exact h
  | cons b l ih =>
      intro acc h
      simp only [firstSeenAux]
      by_cases hb : b ∈ acc
      · simpa [if_pos hb] using ih acc h
      · refine ih _ ?_
        simp only [if_neg hb]
        exact List.Nodup.append h (List.nodup_singleton b)
          (fun x hx hxb => hb (List.mem_singleton.mp hxb ▸ hx))

theorem mem_firstSeen {K : Type} [DecidableEq K] (l : List K) (a : K) :
    a ∈ firstSeen l ↔ a ∈ l := by
  simp [firstSeen, mem_firstSeenAux]

theorem nodup_firstSeen {K : Type} [DecidableEq K] (l : List K) :
    (firstSeen l).Nodup :=
  nodup_firstSeenAux l [] List.nodup_nil

theorem firstSeen_append {K : Type} [DecidableEq K] (l : List K) (k : K) :
    firstSeen (l ++ [k])
      = if k ∈ firstSeen l then firstSeen l else firstSeen l ++ [k] :=
  firstSeenAux_append l [] k

theorem insertRow_map_of_mem {K : Type} [DecidableEq K] (f : K → List ℕ)
    (key : K) (i : ℕ) :
    ∀ (ks : List K), ks.Nodup → key ∈ ks →
      insertRow (ks.map (fun k => (k, f k))) key i
        = ks.map (fun k => (k, if k = key then f k ++ [i] else f k)) := by
  intro ks
  induction ks with
  | nil => intro _ h; cases h
  | cons a ks ih =>
      intro hnd hmem
      simp only [List.map_cons, insertRow]
      by_cases ha : a = key
      · subst ha
        rw [if_pos rfl, if_pos rfl]
        congr 1
        refine List.map_congr_left ?_
        intro k hk
        have hne : k ≠ a := fun h => (List.nodup_cons.mp hnd).1 (h ▸ hk)
        simp [hne]
      · have hmem' : key ∈ ks := by
          rcases List.mem_cons.mp hmem with h | h
          · exact absurd h.symm ha
          · exact h
        simp only [if_neg ha, ih (List.nodup_cons.mp hnd).2 hmem', if_neg ha]

theorem insertRow_map_of_not_mem {K : Type} [DecidableEq K] (f : K → List ℕ)
    (key : K) (i : ℕ) :
    ∀ (ks : List K), key ∉ ks →
      insertRow (ks.map (fun k => (k, f k))) key i
        = ks.map (fun k => (k, f k)) ++ [(key, [i])] := by
  intro ks
  induction ks with
  | nil => intro _; rfl
  | cons a ks ih =>
      intro hmem
      have ha : a ≠ key := fun h => hmem (h ▸ List.mem_cons_self a ks)
      simp only [List.map_cons, insertRow, if_neg ha, List.cons_append]
      rw [ih (fun h => hmem (List.mem_cons_of_mem a h))]

theorem insertRow_groupsOf {K : Type} [DecidableEq K] (κ : ℕ → K)
    (p : List ℕ) (i : ℕ) :
    insertRow (groupsOf κ p) (κ i) i = groupsOf κ (p ++ [i]) := by
  unfold groupsOf
  rw [List.map_append, List.map_singleton, firstSeen_append]
  by_cases hmem : κ i ∈ firstSeen (p.map κ)
  · rw [if_pos hmem,
      insertRow_map_of_mem _ _ _ _ (nodup_firstSeen (p.map κ)) hmem]
    refine List.map_congr_left ?_
    intro k _
    rw [List.filter_append]
    by_cases hk : k = κ i
    · subst hk
      simp
    · have : κ i ≠ k := fun h => hk h.symm
      simp [this, hk]
  · rw [if_neg hmem,
      insertRow_map_of_not_mem _ _ _ _ hmem, List.map_append, List.map_singleton]
    congr 1
    · refine List.map_congr_left ?_
      intro k hk
      rw [List.filter_append]
      have : κ i ≠ k := fun h => hmem (h ▸ hk)
      simp [this]
    · have hfilt : p.filter (fun j => decide (κ j = κ i)) = [] := by
        rw [List.filter_eq_nil_iff]
        intro j hj
        simp only [decide_eq_true_eq]
        intro h
        exact hmem ((mem_firstSeen _ _).mpr (h ▸ List.mem_map_of_mem κ hj))
      simp [hfilt]

theorem foldl_insertRow_groupsOf {K : Type} [DecidableEq K] (κ : ℕ → K) :
    ∀ (l p : List ℕ),
      l.foldl (fun m j => insertRow m (κ j) j) (groupsOf κ p) = groupsOf κ (p ++ l) := by
  intro l
  induction l with
  | nil => intro p; simp
  | cons i l ih =>
      intro p
      simp only [List.foldl_cons, insertRow_groupsOf κ p i, ih (p ++ [i])]
      simp

/-- Characterization of `lineData`: with `κ` the serialized non-positional
tuple of a row, the groups are, in first-seen key order, the filters of
the row range by key. -/
theorem lineData_characterization {V : Type} [Inhabited V]
    (stringify : List V → String) (data : DataTable V) :
    lineData stringify data
      = (firstSeen ((List.range data.length).map
            (fun i => stringify (rowTuple data i)))).map
          (fun k => (List.range data.length).filter
            (fun j => decide (stringify (rowTuple data j) = k))) := by
  unfold lineData
  have h0 : ([] : List (String × List ℕ))
      = groupsOf (fun i => stringify (rowTuple data i)) [] := by
    simp [groupsOf, firstSeen, firstSeenAux]
  rw [h0, foldl_insertRow_groupsOf (fun i => stringify (rowTuple data i))
    (List.range data.length) []]
  simp [groupsOf]

/-- C3: for every raw interval `[v1, v2]` (in either order) and every
numeric dimension `d`, the dimension modifier used by `resolveBand`
returns `[(v1+v2)/2 - d/2, (v1+v2)/2 + d/2]`: an interval of width
exactly `d`, centered on the original midpoint, independent of the
ordering of `v1` and `v2`. -/
theorem claim_C3_width_modifier (d v1 v2 : ℚ) :
    ∃ f, dimensionModifier (some (Dimension.width d)) = some f ∧
      f (JSNum.num v1, JSNum.num v2)
        = (JSNum.num ((v1 + v2) / 2 - d / 2), JSNum.num ((v1 + v2) / 2 + d / 2)) ∧
      ((v1 + v2) / 2 + d / 2) - ((v1 + v2) / 2 - d / 2) = d ∧
      (((v1 + v2) / 2 - d / 2) + ((v1 + v2) / 2 + d / 2)) / 2 = (v1 + v2) / 2 ∧
      f (JSNum.num v2, JSNum.num v1) = f (JSNum.num v1, JSNum.num v2) := by
  refine ⟨_, rfl, ?_, by ring_nf, by ring_nf, ?_⟩
  · simp only [dimensionModifier, JSNum.add, JSNum.div2, JSNum.sub, JSNum.neg,
      Prod.mk.injEq, JSNum.num.injEq]
    constructor <;> ring_nf
  · simp only [dimensionModifier, JSNum.add, JSNum.div2, JSNum.sub, JSNum.neg,
      Prod.mk.injEq, JSNum.num.injEq]
    constructor <;> ring_nf

/-- C4: for every raw interval `[v1, v2]` and dimension
`{gap, clampToRatio}`, the modifier moves each endpoint by
`dv = min(gap/2, r * |v1-v2| / 2)` toward the interior preserving the
original direction, the directed width shrinks by exactly `2 * dv`, the
resulting width is never below `(1 - r) * |v1 - v2|`, and an absent
`clampToRatio` (treated as 0) with a non-negative gap gives no shrink at
all. -/
theorem claim_C4_gap_modifier (g : ℚ) (r : Option ℚ) (v1 v2 : ℚ) :
    ∃ f, dimensionModifier (some (Dimension.gap g r)) = some f ∧
      (f (JSNum.num v1, JSNum.num v2)
        = if v1 < v2 then
            (JSNum.num (v1 + min (g / 2) (r.getD 0 * |v1 - v2| / 2)),
             JSNum.num (v2 - min (g / 2) (r.getD 0 * |v1 - v2| / 2)))
          else
            (JSNum.num (v1 - min (g / 2) (r.getD 0 * |v1 - v2| / 2)),
             JSNum.num (v2 + min (g / 2) (r.getD 0 * |v1 - v2| / 2)))) ∧
      (if v1 < v2 then
        (v2 - min (g / 2) (r.getD 0 * |v1 - v2| / 2))
          - (v1 + min (g / 2) (r.getD 0 * |v1 - v2| / 2))
          = (v2 - v1) - 2 * min (g / 2) (r.getD 0 * |v1 - v2| / 2)
       else
        (v1 - min (g / 2) (r.getD 0 * |v1 - v2| / 2))
          - (v2 + min (g / 2) (r.getD 0 * |v1 - v2| / 2))
          = (v1 - v2) - 2 * min (g / 2) (r.getD 0 * |v1 - v2| / 2)) ∧
      (1 - r.getD 0) * |v1 - v2| ≤
        |(if v1 < v2 then
            (v2 - min (g / 2) (r.getD 0 * |v1 - v2| / 2))
              - (v1 + min (g / 2) (r.getD 0 * |v1 - v2| / 2))
          else
            (v1 - min (g / 2) (r.getD 0 * |v1 - v2| / 2))
              - (v2 + min (g / 2) (r.getD 0 * |v1 - v2| / 2)))| ∧
      (r = none → 0 ≤ g → f (JSNum.num v1, JSNum.num v2) = (JSNum.num v1, JSNum.num v2)) := by
  refine ⟨_, rfl, ?_, ?_, ?_, ?_⟩
  · simp only [JSNum.mul, JSNum.abs, JSNum.sub, JSNum.neg, JSNum.add, JSNum.div2,
      JSNum.jmin, JSNum.lt]
    by_cases h : v1 < v2 <;>
      simp [h, sub_eq_add_neg, mul_div_assoc]
  · split <;> ring_nf
  · have hdv : min (g / 2) (r.getD 0 * |v1 - v2| / 2) ≤ r.getD 0 * |v1 - v2| / 2 :=
      min_le_right _ _
    by_cases h : v1 < v2
    · simp only [if_pos h]
      have habs : |v1 - v2| = v2 - v1 := by
        rw [abs_sub_comm]; exact abs_of_pos (by linarith)
      calc (1 - r.getD 0) * |v1 - v2|
          ≤ (v2 - min (g / 2) (r.getD 0 * |v1 - v2| / 2))
              - (v1 + min (g / 2) (r.getD 0 * |v1 - v2| / 2)) := by
            rw [habs] at hdv ⊢; nlinarith [abs_nonneg (v1 - v2)]
        _ ≤ _ := le_abs_self _
    · simp only [if_neg h]
      have habs : |v1 - v2| = v1 - v2 := abs_of_nonneg (by linarith)
      calc (1 - r.getD 0) * |v1 - v2|
          ≤ (v1 - min (g / 2) (r.getD 0 * |v1 - v2| / 2))
              - (v2 + min (g / 2) (r.getD 0 * |v1 - v2| / 2)) := by
            rw [habs] at hdv ⊢; nlinarith
        _ ≤ _ := le_abs_self _
  · rintro rfl hg
    simp only [JSNum.mul, JSNum.abs, JSNum.sub, JSNum.neg, JSNum.add, JSNum.div2,
      JSNum.jmin, JSNum.lt, Option.getD_none]
    have hmin : min (g / 2) (0 * |v1 - v2| / 2) = 0 := by
      rw [zero_mul, zero_div]
      exact min_eq_right (by linarith)
    by_cases h : v1 < v2 <;>
      simp [h, sub_eq_add_neg, mul_div_assoc, hmin] <;> linarith

/-- Witness for C4 at `gap = 2`, `clampToRatio` absent, interval
`(0, 10)`: the modifier exists and leaves the interval unchanged. -/
theorem claim_C4_gap_modifier_witness :
    ∃ f, dimensionModifier (some (Dimension.gap 2 none)) = some f ∧
      f (JSNum.num 0, JSNum.num 10) = (JSNum.num 0, JSNum.num 10) := by
  obtain ⟨f, hf, _, _, _, h⟩ := claim_C4_gap_modifier 2 none 0 10
  exact ⟨f, hf, h rfl (by norm_num)⟩

/-- C6: `resolveInterpolate` is total (a Lean function by construction):
each of the nine recognized names maps to its curve algorithm, with
`monotone` orientation sensitive, and any unrecognized name takes the
diagnostic branch and returns the linear curve. -/
theorem claim_C6_resolveInterpolate (v : String) (o : Orientation) :
    resolveInterpolate "linear" o = (CurveKind.linear, false) ∧
    resolveInterpolate "basis" o = (CurveKind.basis, false) ∧
    resolveInterpolate "natural" o = (CurveKind.natural, false) ∧
    resolveInterpolate "step" o = (CurveKind.step, false) ∧
    resolveInterpolate "step-before" o = (CurveKind.stepBefore, false) ∧
    resolveInterpolate "step-after" o = (CurveKind.stepAfter, false) ∧
    resolveInterpolate "catmull-rom" o = (CurveKind.catmullRom, false) ∧
    resolveInterpolate "cardinal" o = (CurveKind.cardinal, false) ∧
    resolveInterpolate "monotone" o
      = (if o = Orientation.horizontal then CurveKind.monotoneY
         else CurveKind.monotoneX, false) ∧
    (v ∉ (["linear", "basis", "natural", "step", "step-before", "step-after",
        "catmull-rom", "cardinal", "monotone"] : List String) →
      resolveInterpolate v o = (CurveKind.linear, true)) := by
  refine ⟨rfl, rfl, rfl, rfl, rfl, rfl, rfl, rfl, ?_, ?_⟩
  · by_cases h : o = Orientation.horizontal <;> simp [resolveInterpolate, h]
  · intro hv
    simp only [List.mem_cons, List.not_mem_nil, or_false, not_or] at hv
    obtain ⟨h1, h2, h3, h4, h5, h6, h7, h8, h9⟩ := hv
    unfold resolveInterpolate
    split
    all_goals simp_all

/-- Witness for C6 at the unrecognized name `"bogus"`. -/
theorem claim_C6_resolveInterpolate_witness :
    resolveInterpolate "bogus" Orientation.vertical = (CurveKind.linear, true) := by
  exact (claim_C6_resolveInterpolate "bogus" Orientation.vertical).2.2.2.2.2.2.2.2.2
    (by decide)

/-- C5: the groups returned by `lineData` form a partition of the row
indices `0..length-1`: groups contain only row indices; every row index
lies in exactly one group; two rows share a group exactly when their
non-positional value tuples serialize equally; indices within a group
ascend; and the groups are, in first-seen key order, the filters of the
row range by key. -/
theorem claim_C5_lineData_partition {V : Type} [Inhabited V]
    (stringify : List V → String) (data : DataTable V) :
    (∀ g ∈ lineData stringify data, ∀ j ∈ g, j < data.length) ∧
    (∀ j, j < data.length →
      (lineData stringify data).countP (fun g => decide (j ∈ g)) = 1) ∧
    (∀ j k, j < data.length → k < data.length →
      ((∃ g ∈ lineData stringify data, j ∈ g ∧ k ∈ g) ↔
        stringify (rowTuple data j) = stringify (rowTuple data k))) ∧
    (∀ g ∈ lineData stringify data, g.Sorted (· < ·)) ∧
    lineData stringify data
      = (firstSeen ((List.range data.length).map
            (fun i => stringify (rowTuple data i)))).map
          (fun k => (List.range data.length).filter
            (fun j => decide (stringify (rowTuple data j) = k))) := by
  have hchar := lineData_characterization stringify data
  refine ⟨?_, ?_, ?_, ?_, hchar⟩
  · intro g hg j hj
    rw [hchar] at hg
    obtain ⟨k, _, rfl⟩ := List.mem_map.mp hg
    exact List.mem_range.mp (List.mem_of_mem_filter hj)
  · intro j hj
    rw [hchar, List.countP_map]
    have hcongr : ∀ k ∈ firstSeen ((List.range data.length).map
        (fun i => stringify (rowTuple data i))),
        (((fun g => decide (j ∈ g)) ∘ fun k => (List.range data.length).filter
          (fun j => decide (stringify (rowTuple data j) = k))) k = true)
          ↔ ((fun k => decide (stringify (rowTuple data j) = k)) k = true) := by
      intro k _
      simp only [Function.comp_apply, List.mem_filter, List.mem_range,
        decide_eq_true_eq]
      constructor
      · exact fun h => h.2
      · exact fun h => ⟨hj, h⟩
    rw [List.countP_congr hcongr]
    have hcount : (firstSeen ((List.range data.length).map
        (fun i => stringify (rowTuple data i)))).countP
          (fun k => decide (stringify (rowTuple data j) = k))
        = (firstSeen ((List.range data.length).map
            (fun i => stringify (rowTuple data i)))).count
          (stringify (rowTuple data j)) := by
      rw [List.count]
      refine List.countP_congr ?_
      intro k _
      by_cases h : stringify (rowTuple data j) = k
      · subst h; simp
      · simp [h, Ne.symm h]
    rw [hcount]
    refine List.count_eq_one_of_mem (nodup_firstSeen _) ?_
    rw [mem_firstSeen]
    exact List.mem_map_of_mem _ (List.mem_range.mpr hj)
  · intro j k hj hk
    constructor
    · rintro ⟨g, hg, hjg, hkg⟩
      rw [hchar] at hg
      obtain ⟨key, _, rfl⟩ := List.mem_map.mp hg
      have h1 := of_decide_eq_true (List.mem_filter.mp hjg).2
      have h2 := of_decide_eq_true (List.mem_filter.mp hkg).2
      rw [h1, h2]
    · intro heq
      refine ⟨(List.range data.length).filter
        (fun i => decide (stringify (rowTuple data i)
          = stringify (rowTuple data j))), ?_, ?_, ?_⟩
      · rw [hchar]
        refine List.mem_map_of_mem _ ?_
        rw [mem_firstSeen]
        exact List.mem_map_of_mem _ (List.mem_range.mpr hj)
      · exact List.mem_filter.mpr ⟨List.mem_range.mpr hj, by simp⟩
      · exact List.mem_filter.mpr ⟨List.mem_range.mpr hk, by simp [heq]⟩
  · intro g hg
    rw [hchar] at hg
    obtain ⟨key, _, rfl⟩ := List.mem_map.mp hg
    exact (List.pairwise_lt_range data.length).filter _

/-- Witness for C5 on the concrete table with rows
`(x: 1, cat: 0), (x: 0, cat: 0), (x: 1, cat: 1)`: rows 0 and 1 share a
group because their `cat` tuples serialize equally. -/
theorem claim_C5_lineData_partition_witness :
    ∃ g ∈ lineData exStringify lineTable, 0 ∈ g ∧ 1 ∈ g := by
  have h := claim_C5_lineData_partition exStringify lineTable
  exact (h.2.2.1 0 1 (by decide) (by decide)).mpr rfl

/-- Processing copies of an already-seen key leaves the accumulator
unchanged. -/
theorem firstSeenAux_replicate_mem {K : Type} [DecidableEq K] (n : ℕ) (c : K) :
    ∀ (acc : List K), c ∈ acc → firstSeenAux acc (List.replicate n c) = acc := by
  induction n with
  | zero => intro acc _; rfl
  | succ n ih =>
      intro acc h
      simp only [List.replicate_succ, firstSeenAux, if_pos h]
      exact ih acc h

/-- The first-seen keys of a constant list. -/
theorem firstSeen_replicate {K : Type} [DecidableEq K] (n : ℕ) (c : K) :
    firstSeen (List.replicate n c) = if n = 0 then [] else [c] := by
  cases n with
  | zero => rfl
  | succ n =>
      simp only [List.replicate_succ, Nat.succ_ne_zero, if_neg]
      show firstSeenAux [] (c :: List.replicate n c) = [c]
      simp only [firstSeenAux, List.not_mem_nil, if_neg, List.nil_append]
      exact firstSeenAux_replicate_mem n c [c] (List.mem_singleton.mpr rfl)

/-- C10: for a table whose only present channels are `x` and `y`, every
row serializes to the same empty composite key, so `lineData` returns a
single group of all row indices in ascending order — or no groups at all
for an empty table. -/
theorem claim_C10_lineData_single_group {V : Type} [Inhabited V]
    (stringify : List V → String) (data : DataTable V)
    (h : groupChannels data = []) :
    lineData stringify data
      = if data.length = 0 then [] else [List.range data.length] := by
  have htuple : ∀ j, rowTuple data j = [] := by
    intro j
    simp [rowTuple, h]
  rw [lineData_characterization]
  have hmap : (List.range data.length).map (fun i => stringify (rowTuple data i))
      = List.replicate data.length (stringify []) := by
    rw [show (fun i => stringify (rowTuple data i)) = (fun _ => stringify []) from
      funext (fun i => by rw [htuple])]
    rw [List.map_const', List.length_range]
  rw [hmap, firstSeen_replicate]
  cases hn : data.length with
  | zero => simp
  | succ n =>
      rw [if_neg (Nat.succ_ne_zero n), if_neg (Nat.succ_ne_zero n),
        List.map_singleton]
      congr 1
      refine List.filter_eq_self.mpr ?_
      intro j _
      simp [htuple]

/-- Witness for C10 on the concrete `x`/`y`-only table of length 3. -/
theorem claim_C10_lineData_single_group_witness :
    lineData exStringify xyTable = [[0, 1, 2]] := by
  have h := claim_C10_lineData_single_group exStringify xyTable (by decide)
  simpa using h

/-- C7 as stated is false: with a constant color scale over a varying
`color` column, the resolved fill is identical across indices although
the column values differ, refuting the claimed "varies iff the color
column varies" equivalence at this concrete input. -/
theorem claim_C7_counterexample :
    encStyle.fillColor = some "$encoding" ∧
    colorValue colorCtx 0 ≠ colorValue colorCtx 1 ∧
    ((resolveStyle colorCtx encStyle).atIndex 0).fill
      = ((resolveStyle colorCtx encStyle).atIndex 1).fill := by
  exact ⟨rfl, by decide, rfl⟩

/-- C7 (amended): if `fillColor` is `"$encoding"`, then every resolved
fill equals the per-row resolved color; the fill varies across indices
only if the color column values vary (equal values give equal fill); and
the fill varies exactly when the per-row resolved colors vary. -/
theorem claim_C7_amended_encoding_fill {V : Type} [Inhabited V]
    (rctx : ResolveContext V) (style : MarkStyle)
    (h : style.fillColor = some "$encoding") :
    (∀ i, ((resolveStyle rctx style).atIndex i).fill
        = some ((resolveColor rctx).atIndex i)) ∧
    (∀ i j, ((resolveStyle rctx style).atIndex i).fill
        ≠ ((resolveStyle rctx style).atIndex j).fill →
      colorValue rctx i ≠ colorValue rctx j) ∧
    (∀ i j, (((resolveStyle rctx style).atIndex i).fill
        ≠ ((resolveStyle rctx style).atIndex j).fill ↔
      (resolveColor rctx).atIndex i ≠ (resolveColor rctx).atIndex j)) := by
  have hfill : ∀ i, ((resolveStyle rctx style).atIndex i).fill
      = some ((resolveColor rctx).atIndex i) := by
    intro i
    by_cases hs : style.strokeColor = some "$encoding" <;>
      simp [resolveStyle, h, hs]
  refine ⟨hfill, ?_, ?_⟩
  · intro i j hne hveq
    apply hne
    rw [hfill i, hfill j]
    unfold resolveColor
    cases hcol : rctx.data.col "color" with
    | none => simp [constant]
    | some column =>
        cases hsc : rctx.proxy.scale.color with
        | none => simp [constant]
        | some scale =>
            simp only [colorValue, hcol, Option.getD_some] at hveq
            simp only [mapped]
            exact congrArg (fun v => some (scale.apply v)) hveq
  · intro i j
    rw [hfill i, hfill j]
    simp

/-- Witness for the amended C7 at the concrete context: the resolved fill
of row 0 is the resolved color of row 0. -/
theorem claim_C7_amended_encoding_fill_witness :
    ((resolveStyle colorCtx encStyle).atIndex 0).fill
      = some ((resolveColor colorCtx).atIndex 0) :=
  (claim_C7_amended_encoding_fill colorCtx encStyle rfl).1 0

theorem canvasRunAux_pairs {V : Type} [Inhabited V] (rctx : ResolveContext V)
    (style : MarkStyle) :
    ∀ (items : List (Option RenderPrim × ℕ)) (s : CanvasState),
      (canvasRunAux rctx style s items).map (fun o => (o.index, o.prim))
        = items.filterMap (fun gi => gi.1.map (fun g => (gi.2, g))) := by
  intro items
  induction items with
  | nil => intro s; rfl
  | cons gi rest ih =>
      intro s
      obtain ⟨g, i⟩ := gi
      cases g with
      | none => simp [canvasRunAux, ih]
      | some g => simp [canvasRunAux, ih]

theorem filterMap_ite_some {α β : Type} (l : List α) (p : α → Bool) (f : α → β) :
    l.filterMap (fun a => if p a then some (f a) else none) = (l.filter p).map f := by
  induction l with
  | nil => rfl
  | cons a l ih =>
      cases hp : p a <;>
        simp [List.filterMap_cons, List.filter_cons, hp, ih]

theorem filterMap_ite_none {α β : Type} (l : List α) (p : α → Bool) (f : α → β) :
    l.filterMap (fun a => if p a then none else some (f a))
      = (l.filter (fun a => !p a)).map f := by
  induction l with
  | nil => rfl
  | cons a l ih =>
      cases hp : p a <;>
        simp [List.filterMap_cons, List.filter_cons, hp, ih]

/-- The row loop of the two backends agree: for any per-row finiteness
condition, geometry and attributes, mapping the retained output to
(index, geometry) equals the visible part of the immediate-mode output
mapped the same way. -/
theorem rowLoop_equiv {V : Type} [Inhabited V] (rctx : ResolveContext V)
    (style : MarkStyle) (l : List ℕ) (C : ℕ → Bool) (P : ℕ → RenderPrim)
    (A : ℕ → AttrBag) (hvis : ∀ i, (P i).visible = true) :
    ((l.filterMap (fun i => if C i then some (SVGOut.mk i (P i) (A i)) else none)).map
        (fun o => (o.index, o.prim)))
      = ((canvasRun rctx style (l.map (fun i => (if C i then some (P i) else none, i)))).map
          (fun o => (o.index, o.prim))).filter (fun q => q.2.visible) := by
  unfold canvasRun
  rw [canvasRunAux_pairs, List.filterMap_map, List.map_filterMap]
  have hL : ∀ i ∈ l,
      (if C i then some (SVGOut.mk i (P i) (A i)) else none).map
        (fun o => (o.index, o.prim))
        = if C i then some (i, P i) else none := by
    intro i _
    cases hC : C i <;> simp [hC]
  have hR : ∀ i ∈ l,
      ((fun gi => gi.1.map (fun g => (gi.2, g)))
        ∘ fun i => (if C i then some (P i) else none, i)) i
        = if C i then some (i, P i) else none := by
    intro i _
    cases hC : C i <;> simp [hC]
  rw [List.filterMap_congr hL, List.filterMap_congr hR]
  refine (List.filter_eq_self.mpr ?_).symm
  intro q hq
  obtain ⟨i, _, hi⟩ := List.mem_filterMap.mp hq
  cases hC : C i <;> rw [hC] at hi
  · cases hi
  · cases (Option.some.injEq _ _).mp hi
    exact hvis i

/-- The group loop of the two backends agree: the retained backend skips
the groups whose path came back `null` (no surviving points), exactly the
groups whose painted path is empty on the immediate-mode side. -/
theorem groupLoop_equiv {V : Type} [Inhabited V] (rctx : ResolveContext V)
    (style : MarkStyle) (groups : List (List ℕ)) (E : List ℕ → Bool)
    (P : List ℕ → RenderPrim) (A : List ℕ → AttrBag)
    (hvis : ∀ ids, (P ids).visible = !(E ids)) :
    ((groups.filterMap (fun ids =>
        if E ids then none
        else some (SVGOut.mk (ids.headD 0) (P ids) (A ids)))).map
          (fun o => (o.index, o.prim)))
      = ((canvasRun rctx style (groups.map (fun ids => (some (P ids), ids.headD 0)))).map
          (fun o => (o.index, o.prim))).filter (fun q => q.2.visible) := by
  unfold canvasRun
  rw [canvasRunAux_pairs, List.filterMap_map, List.map_filterMap]
  have hL : ∀ ids ∈ groups,
      (if E ids then none
        else some (SVGOut.mk (ids.headD 0) (P ids) (A ids))).map
          (fun o => (o.index, o.prim))
        = if E ids then none else some (ids.headD 0, P ids) := by
    intro ids _
    cases hE : E ids <;> simp [hE]
  have hR : ∀ ids ∈ groups,
      ((fun gi => gi.1.map (fun g => (gi.2, g)))
        ∘ fun ids => (some (P ids), ids.headD 0)) ids
        = some (ids.headD 0, P ids) := by
    intro ids _
    rfl
  rw [List.filterMap_congr hL, List.filterMap_congr hR]
  rw [show (fun ids => some (ids.headD 0, P ids))
      = some ∘ (fun (ids : List ℕ) => (ids.headD 0, P ids)) from rfl,
    List.filterMap_eq_map, List.filter_map]
  rw [show (fun (q : ℕ × RenderPrim) => q.2.visible)
      ∘ (fun (ids : List ℕ) => (ids.headD 0, P ids))
      = fun ids => (P ids).visible from rfl]
  have : ∀ ids ∈ groups, (if E ids then none else some (ids.headD 0, P ids))
      = if !(E ids) then some (ids.headD 0, P ids) else none := by
    intro ids _
    cases hE : E ids <;> simp [hE]
  rw [List.filterMap_congr this, filterMap_ite_some]
  congr 1
  refine List.filter_congr ?_
  intro ids _
  rw [hvis ids]

/-- C1: on identical inputs the retained-mode and immediate-mode
renderers emit equivalent primitives for the same rows in the same order
at numerically identical pixel coordinates: the (row index, geometry)
sequence of `createElements` equals that of `draw` restricted to its
visible (non-empty) paints, for every primitive, context, layer,
serialization and square-root function. -/
theorem claim_C1_backend_equivalence {V : Type} [Inhabited V]
    (stringify : List V → String) (sqrtDivPi : ℚ → JSNum)
    (rctx : ResolveContext V) (layer : LayerOutputs V) :
    (createElements stringify sqrtDivPi rctx layer).map (fun o => (o.index, o.prim))
      = ((draw stringify sqrtDivPi rctx layer).map (fun o => (o.index, o.prim))).filter
          (fun q => q.2.visible) := by
  cases hp : layer.primitive
  case rect =>
      simp only [createElements, draw, hp]
      exact rowLoop_equiv rctx layer.style (List.range layer.data.length) _ _ _
        (fun i => rfl)
  case point =>
      simp only [createElements, draw, hp]
      exact rowLoop_equiv rctx layer.style (List.range layer.data.length) _ _ _
        (fun i => rfl)
  case rule =>
      simp only [createElements, draw, hp]
      exact rowLoop_equiv rctx layer.style (List.range layer.data.length) _ _ _
        (fun i => rfl)
  case line =>
      simp only [createElements, draw, hp]
      exact groupLoop_equiv rctx layer.style (lineData stringify layer.data) _ _ _
        (fun ids => rfl)
  case area =>
      simp only [createElements, draw, hp]
      exact groupLoop_equiv rctx layer.style (lineData stringify layer.data) _ _ _
        (fun ids => rfl)

theorem map_index_filterMap (l : List ℕ) (C : ℕ → Bool) (F : ℕ → RenderPrim)
    (A : ℕ → AttrBag) :
    (l.filterMap (fun i => if C i then some (SVGOut.mk i (F i) (A i)) else none)).map
      (fun o => o.index) = l.filter C := by
  induction l with
  | nil => rfl
  | cons a l ih =>
      cases hC : C a <;> simp [List.filterMap_cons, List.filter_cons, hC, ih]

theorem canvasRunAux_indices {V : Type} [Inhabited V] (rctx : ResolveContext V)
    (style : MarkStyle) :
    ∀ (items : List (Option RenderPrim × ℕ)) (s : CanvasState),
      (canvasRunAux rctx style s items).map (fun o => o.index)
        = items.filterMap (fun gi => gi.1.map (fun _ => gi.2)) := by
  intro items
  induction items with
  | nil => intro s; rfl
  | cons gi rest ih =>
      intro s
      obtain ⟨g, i⟩ := gi
      cases g with
      | none => simp [canvasRunAux, ih]
      | some g => simp [canvasRunAux, ih]

theorem map_index_canvasRun {V : Type} [Inhabited V] (rctx : ResolveContext V)
    (style : MarkStyle) (l : List ℕ) (C : ℕ → Bool) (F : ℕ → RenderPrim) :
    (canvasRun rctx style (l.map (fun i => (if C i then some (F i) else none, i)))).map
      (fun o => o.index) = l.filter C := by
  unfold canvasRun
  rw [canvasRunAux_indices, List.filterMap_map]
  have h : ∀ i ∈ l,
      ((fun gi => gi.1.map (fun _ => gi.2))
        ∘ fun i => (if C i then some (F i) else none, i)) i
        = if C i then some i else none := by
    intro i _
    cases hC : C i <;> simp [hC]
  rw [List.filterMap_congr h]
  simpa using filterMap_ite_some l C (fun i => i)

theorem map_index_filterMap_group (groups : List (List ℕ)) (E : List ℕ → Bool)
    (P : List ℕ → RenderPrim) (A : List ℕ → AttrBag) :
    (groups.filterMap (fun ids =>
        if E ids then none
        else some (SVGOut.mk (ids.headD 0) (P ids) (A ids)))).map (fun o => o.index)
      = (groups.filter (fun ids => !E ids)).map (fun ids => ids.headD 0) := by
  rw [filterMap_ite_none, List.map_map]
  rfl

theorem map_index_canvasRun_group {V : Type} [Inhabited V] (rctx : ResolveContext V)
    (style : MarkStyle) (groups : List (List ℕ)) (P : List ℕ → RenderPrim) :
    (canvasRun rctx style (groups.map (fun ids => (some (P ids), ids.headD 0)))).map
      (fun o => o.index) = groups.map (fun ids => ids.headD 0) := by
  unfold canvasRun
  rw [canvasRunAux_indices, List.filterMap_map]
  have h : ∀ ids ∈ groups,
      ((fun gi => gi.1.map (fun _ => gi.2))
        ∘ fun ids => (some (P ids), ids.headD 0)) ids
        = some (ids.headD 0) := by
    intro ids _
    rfl
  rw [List.filterMap_congr h,
    show (fun (ids : List ℕ) => some (ids.headD 0))
      = some ∘ (fun (ids : List ℕ) => ids.headD 0) from rfl,
    List.filterMap_eq_map]

/-- C2: rows with non-finite required coordinates are dropped without
affecting the others, for every primitive and both backends (the
embedding is total, so no error is ever raised): the emitted row indices
of `createElements` and `draw` are exactly the rows passing the
finiteness filter, and every index `linePath`/`areaPath` hands to the
curve has only finite coordinates (point and band endpoints alike). -/
theorem claim_C2_nonfinite_rows_dropped {V : Type} [Inhabited V]
    (stringify : List V → String) (sqrtDivPi : ℚ → JSNum)
    (rctx : ResolveContext V) (layer : LayerOutputs V) (indices : List ℕ) :
    (∀ i ∈ linePathPoints rctx indices,
      ((resolvePoint rctx Axis.x).atIndex i).isFinite = true ∧
      ((resolvePoint rctx Axis.y).atIndex i).isFinite = true) ∧
    (layer.orientation.getD Orientation.vertical = Orientation.vertical →
      ∀ i ∈ areaPathPoints rctx indices layer,
        ((resolvePoint rctx Axis.x).atIndex i).isFinite = true ∧
        ((resolveBand rctx Axis.y none).atIndex i).1.isFinite = true ∧
        ((resolveBand rctx Axis.y none).atIndex i).2.isFinite = true) ∧
    (layer.orientation.getD Orientation.vertical = Orientation.horizontal →
      ∀ i ∈ areaPathPoints rctx indices layer,
        ((resolvePoint rctx Axis.y).atIndex i).isFinite = true ∧
        ((resolveBand rctx Axis.x none).atIndex i).1.isFinite = true ∧
        ((resolveBand rctx Axis.x none).atIndex i).2.isFinite = true) ∧
    (layer.primitive = Primitive.rect →
      (createElements stringify sqrtDivPi rctx layer).map (fun o => o.index)
        = (List.range layer.data.length).filter (fun i =>
            ((resolveBand rctx Axis.x layer.xDimension).atIndex i).1.isFinite
            && ((resolveBand rctx Axis.x layer.xDimension).atIndex i).2.isFinite
            && ((resolveBand rctx Axis.y layer.yDimension).atIndex i).1.isFinite
            && ((resolveBand rctx Axis.y layer.yDimension).atIndex i).2.isFinite) ∧
      (draw stringify sqrtDivPi rctx layer).map (fun o => o.index)
        = (List.range layer.data.length).filter (fun i =>
            ((resolveBand rctx Axis.x layer.xDimension).atIndex i).1.isFinite
            && ((resolveBand rctx Axis.x layer.xDimension).atIndex i).2.isFinite
            && ((resolveBand rctx Axis.y layer.yDimension).atIndex i).1.isFinite
            && ((resolveBand rctx Axis.y layer.yDimension).atIndex i).2.isFinite)) ∧
    (layer.primitive = Primitive.point →
      (createElements stringify sqrtDivPi rctx layer).map (fun o => o.index)
        = (List.range layer.data.length).filter (fun i =>
            ((resolvePoint rctx Axis.x).atIndex i).isFinite
            && ((resolvePoint rctx Axis.y).atIndex i).isFinite
            && ((resolveSize rctx layer.pointSize).atIndex i).isFinite) ∧
      (draw stringify sqrtDivPi rctx layer).map (fun o => o.index)
        = (List.range layer.data.length).filter (fun i =>
            ((resolvePoint rctx Axis.x).atIndex i).isFinite
            && ((resolvePoint rctx Axis.y).atIndex i).isFinite
            && ((resolveSize rctx layer.pointSize).atIndex i).isFinite)) ∧
    (layer.primitive = Primitive.rule →
      (createElements stringify sqrtDivPi rctx layer).map (fun o => o.index)
        = (List.range layer.data.length).filter (fun i =>
            ((resolveBand rctx Axis.x layer.xDimension).atIndex i).1.isFinite
            && ((resolveBand rctx Axis.x layer.xDimension).atIndex i).2.isFinite
            && ((resolveBand rctx Axis.y layer.yDimension).atIndex i).1.isFinite
            && ((resolveBand rctx Axis.y layer.yDimension).atIndex i).2.isFinite) ∧
      (draw stringify sqrtDivPi rctx layer).map (fun o => o.index)
        = (List.range layer.data.length).filter (fun i =>
            ((resolveBand rctx Axis.x layer.xDimension).atIndex i).1.isFinite
            && ((resolveBand rctx Axis.x layer.xDimension).atIndex i).2.isFinite
            && ((resolveBand rctx Axis.y layer.yDimension).atIndex i).1.isFinite
            && ((resolveBand rctx Axis.y layer.yDimension).atIndex i).2.isFinite)) := by
  refine ⟨?_, ?_, ?_, ?_, ?_, ?_⟩
  · intro i hi
    simp only [linePathPoints, List.mem_mergeSort, List.mem_filter,
      Bool.and_eq_true] at hi
    exact hi.2
  · intro ho i hi
    simp only [areaPathPoints, ho, List.mem_mergeSort, List.mem_filter,
      Bool.and_eq_true] at hi
    exact ⟨hi.2.1.1, hi.2.1.2, hi.2.2⟩
  · intro ho i hi
    simp only [areaPathPoints, ho, List.mem_mergeSort, List.mem_filter,
      Bool.and_eq_true] at hi
    exact ⟨hi.2.1.1, hi.2.1.2, hi.2.2⟩
  · intro hp
    constructor
    · simp only [createElements, hp]
      exact map_index_filterMap (List.range layer.data.length) _ _ _
    · simp only [draw, hp]
      exact map_index_canvasRun rctx layer.style (List.range layer.data.length) _ _
  · intro hp
    constructor
    · simp only [createElements, hp]
      exact map_index_filterMap (List.range layer.data.length) _ _ _
    · simp only [draw, hp]
      exact map_index_canvasRun rctx layer.style (List.range layer.data.length) _ _
  · intro hp
    constructor
    · simp only [createElements, hp]
      exact map_index_filterMap (List.range layer.data.length) _ _ _
    · simp only [draw, hp]
      exact map_index_canvasRun rctx layer.style (List.range layer.data.length) _ _

theorem canvasRun_pairs_row {V : Type} [Inhabited V] (rctx : ResolveContext V)
    (style : MarkStyle) (l : List ℕ) (C : ℕ → Bool) (F : ℕ → RenderPrim) :
    (canvasRun rctx style (l.map (fun i => (if C i then some (F i) else none, i)))).map
      (fun o => (o.index, o.prim))
      = l.filterMap (fun i => if C i then some (i, F i) else none) := by
  unfold canvasRun
  rw [canvasRunAux_pairs, List.filterMap_map]
  refine List.filterMap_congr ?_
  intro i _
  cases hC : C i <;> simp [hC]

theorem mem_filterMap_row (l : List ℕ) (C : ℕ → Bool) (F : ℕ → RenderPrim)
    (A : ℕ → AttrBag) (o : SVGOut)
    (ho : o ∈ l.filterMap (fun j => if C j then some (SVGOut.mk j (F j) (A j)) else none)) :
    o.index ∈ l ∧ C o.index = true ∧ o.prim = F o.index ∧ o.attrs = A o.index := by
  obtain ⟨j, hj, hfj⟩ := List.mem_filterMap.mp ho
  cases hC : C j <;> rw [hC] at hfj
  · simp at hfj
  · rw [if_pos rfl] at hfj
    cases Option.some.inj hfj
    exact ⟨hj, hC, rfl, rfl⟩

theorem exists_mem_filterMap_row (l : List ℕ) (C : ℕ → Bool) (F : ℕ → RenderPrim)
    (A : ℕ → AttrBag) (i : ℕ) (hi : i ∈ l) (hC : C i = true) :
    ∃ o ∈ l.filterMap (fun j => if C j then some (SVGOut.mk j (F j) (A j)) else none),
      o.index = i ∧ o.prim = F i := by
  refine ⟨SVGOut.mk i (F i) (A i), List.mem_filterMap.mpr ⟨i, hi, ?_⟩, rfl, rfl⟩
  rw [hC, if_pos rfl]

theorem mem_canvasRun_row {V : Type} [Inhabited V] (rctx : ResolveContext V)
    (style : MarkStyle) (l : List ℕ) (C : ℕ → Bool) (F : ℕ → RenderPrim)
    (o : CanvasOut)
    (ho : o ∈ canvasRun rctx style (l.map (fun j => (if C j then some (F j) else none, j)))) :
    o.index ∈ l ∧ C o.index = true ∧ o.prim = F o.index := by
  have hm := List.mem_map_of_mem (fun o => (o.index, o.prim)) ho
  rw [canvasRun_pairs_row] at hm
  obtain ⟨j, hj, hfj⟩ := List.mem_filterMap.mp hm
  cases hC : C j <;> rw [hC] at hfj
  · simp at hfj
  · rw [if_pos rfl] at hfj
    have h1 : j = o.index := congrArg Prod.fst (Option.some.inj hfj)
    have h2 : F j = o.prim := congrArg Prod.snd (Option.some.inj hfj)
    subst h1
    exact ⟨hj, hC, h2.symm⟩

theorem exists_mem_canvasRun_row {V : Type} [Inhabited V] (rctx : ResolveContext V)
    (style : MarkStyle) (l : List ℕ) (C : ℕ → Bool) (F : ℕ → RenderPrim)
    (i : ℕ) (hi : i ∈ l) (hC : C i = true) :
    ∃ o ∈ canvasRun rctx style (l.map (fun j => (if C j then some (F j) else none, j))),
      o.index = i ∧ o.prim = F i := by
  have hm : (i, F i) ∈ (canvasRun rctx style
      (l.map (fun j => (if C j then some (F j) else none, j)))).map
        (fun o => (o.index, o.prim)) := by
    rw [canvasRun_pairs_row]
    exact List.mem_filterMap.mpr ⟨i, hi, by rw [hC, if_pos rfl]⟩
  obtain ⟨o, ho, hpair⟩ := List.mem_map.mp hm
  exact ⟨o, ho, congrArg Prod.fst hpair, congrArg Prod.snd hpair⟩

/-- C8: for the rect primitive, a row whose four resolved band bounds are
finite is emitted by both renderers as the rectangle with origin
`(min(x0,x1), min(y0,y1))`, width `|x1-x0|` and height `|y1-y0|`; every
element either backend emits for that row has exactly this normalized
geometry, and the width and height are non-negative for any ordering of
the interval endpoints. -/
theorem claim_C8_rect_normalization {V : Type} [Inhabited V]
    (stringify : List V → String) (sqrtDivPi : ℚ → JSNum)
    (rctx : ResolveContext V) (layer : LayerOutputs V) (i : ℕ) (a b c d : ℚ)
    (hp : layer.primitive = Primitive.rect) (hi : i < layer.data.length)
    (hx : (resolveBand rctx Axis.x layer.xDimension).atIndex i
      = (JSNum.num a, JSNum.num b))
    (hy : (resolveBand rctx Axis.y layer.yDimension).atIndex i
      = (JSNum.num c, JSNum.num d)) :
    (∃ o ∈ createElements stringify sqrtDivPi rctx layer, o.index = i ∧
      o.prim = RenderPrim.rect (min a b) (min c d) |b - a| |d - c|) ∧
    (∃ o ∈ draw stringify sqrtDivPi rctx layer, o.index = i ∧
      o.prim = RenderPrim.rect (min a b) (min c d) |b - a| |d - c|) ∧
    (∀ o ∈ createElements stringify sqrtDivPi rctx layer, o.index = i →
      o.prim = RenderPrim.rect (min a b) (min c d) |b - a| |d - c|) ∧
    (∀ o ∈ draw stringify sqrtDivPi rctx layer, o.index = i →
      o.prim = RenderPrim.rect (min a b) (min c d) |b - a| |d - c|) ∧
    0 ≤ |b - a| ∧ 0 ≤ |d - c| := by
  have hC : (((resolveBand rctx Axis.x layer.xDimension).atIndex i).1.isFinite
      && ((resolveBand rctx Axis.x layer.xDimension).atIndex i).2.isFinite
      && ((resolveBand rctx Axis.y layer.yDimension).atIndex i).1.isFinite
      && ((resolveBand rctx Axis.y layer.yDimension).atIndex i).2.isFinite) = true := by
    rw [hx, hy]
    rfl
  have hXeq : RenderPrim.rect
      (min ((resolveBand rctx Axis.x layer.xDimension).atIndex i).1.toQ
        ((resolveBand rctx Axis.x layer.xDimension).atIndex i).2.toQ)
      (min ((resolveBand rctx Axis.y layer.yDimension).atIndex i).1.toQ
        ((resolveBand rctx Axis.y layer.yDimension).atIndex i).2.toQ)
      |((resolveBand rctx Axis.x layer.xDimension).atIndex i).2.toQ
        - ((resolveBand rctx Axis.x layer.xDimension).atIndex i).1.toQ|
      |((resolveBand rctx Axis.y layer.yDimension).atIndex i).2.toQ
        - ((resolveBand rctx Axis.y layer.yDimension).atIndex i).1.toQ|
      = RenderPrim.rect (min a b) (min c d) |b - a| |d - c| := by
    rw [hx, hy]
    rfl
  refine ⟨?_, ?_, ?_, ?_, abs_nonneg _, abs_nonneg _⟩
  · simp only [createElements, hp]
    rw [← hXeq]
    exact exists_mem_filterMap_row _ _ _ _ i (List.mem_range.mpr hi) hC
  · simp only [draw, hp]
    rw [← hXeq]
    exact exists_mem_canvasRun_row rctx layer.style _ _ _ i
      (List.mem_range.mpr hi) hC
  · simp only [createElements, hp]
    intro o ho hoi
    obtain ⟨_, _, hoprim, _⟩ := mem_filterMap_row _ _ _ _ o ho
    rw [hoprim, hoi, hXeq]
  · simp only [draw, hp]
    intro o ho hoi
    obtain ⟨_, _, hoprim⟩ := mem_canvasRun_row rctx layer.style _ _ _ o ho
    rw [hoprim, hoi, hXeq]

/-- Every paint operation performed by one `style.draw(ctx, index)` call
uses, for an encoded color channel, exactly the per-row resolved color of
that index, regardless of the incoming context state. -/
theorem canvasDrawStep_ops {V : Type} [Inhabited V] (rctx : ResolveContext V)
    (style : MarkStyle) (s : CanvasState) (i : ℕ) :
    ∀ op ∈ (canvasDrawStep rctx style s i).2,
      (∀ c a', op = PaintOp.fill c a' → style.fillColor = some "$encoding" →
        c = some ((resolveColor rctx).atIndex i)) ∧
      (∀ c a', op = PaintOp.stroke c a' → style.strokeColor = some "$encoding" →
        c = some ((resolveColor rctx).atIndex i)) := by
  intro op hop
  simp only [canvasDrawStep] at hop
  constructor
  · rintro c a' rfl henc
    rw [henc] at hop
    simp only [if_pos rfl] at hop
    split_ifs at hop <;> simp_all [List.mem_append]
  · rintro c a' rfl henc
    rw [henc] at hop
    simp only [if_pos rfl] at hop
    split_ifs at hop <;> simp_all [List.mem_append]

/-- The paint operations of every emitted immediate-mode unit use, for an
encoded channel, the resolved color of that unit's own style index. -/
theorem canvasRunAux_ops {V : Type} [Inhabited V] (rctx : ResolveContext V)
    (style : MarkStyle) :
    ∀ (items : List (Option RenderPrim × ℕ)) (s : CanvasState)
      (o : CanvasOut), o ∈ canvasRunAux rctx style s items → ∀ op ∈ o.ops,
      (∀ c a', op = PaintOp.fill c a' → style.fillColor = some "$encoding" →
        c = some ((resolveColor rctx).atIndex o.index)) ∧
      (∀ c a', op = PaintOp.stroke c a' → style.strokeColor = some "$encoding" →
        c = some ((resolveColor rctx).atIndex o.index)) := by
  intro items
  induction items with
  | nil =>
      intro s o ho
      exact absurd ho (List.not_mem_nil o)
  | cons gi rest ih =>
      intro s o ho
      obtain ⟨g, i⟩ := gi
      cases g with
      | none =>
          rw [show canvasRunAux rctx style s ((none, i) :: rest)
            = canvasRunAux rctx style s rest from rfl] at ho
          exact ih s o ho
      | some g =>
          rw [show canvasRunAux rctx style s ((some g, i) :: rest)
            = ⟨i, g, (canvasDrawStep rctx style s i).2⟩
                :: canvasRunAux rctx style (canvasDrawStep rctx style s i).1 rest
            from rfl] at ho
          rcases List.mem_cons.mp ho with rfl | hmem
          · exact canvasDrawStep_ops rctx style s i
          · exact ih _ o hmem

theorem mem_filterMap_group (groups : List (List ℕ)) (E : List ℕ → Bool)
    (P : List ℕ → RenderPrim) (A : ℕ → AttrBag) (o : SVGOut)
    (ho : o ∈ groups.filterMap (fun ids =>
      if E ids then none
      else some (SVGOut.mk (ids.headD 0) (P ids) (A (ids.headD 0))))) :
    o.attrs = A o.index := by
  obtain ⟨ids, _, hf⟩ := List.mem_filterMap.mp ho
  cases hE : E ids <;> rw [hE] at hf
  · rw [if_neg Bool.false_ne_true] at hf
    cases Option.some.inj hf
    rfl
  · rw [if_pos rfl] at hf
    cases hf

/-- C9: for the line and area primitives both renderers resolve each
path's style at the group's first row `ids[0]`: the retained backend
emits, in order, the heads of the (non-empty-path) groups and its
attribute bag is the style resolved at that head; the immediate-mode
backend emits the heads of all groups and every encoded fill or stroke it
paints uses the color resolved at that same head index. -/
theorem claim_C9_group_style_at_first_row {V : Type} [Inhabited V]
    (stringify : List V → String) (sqrtDivPi : ℚ → JSNum)
    (rctx : ResolveContext V) (layer : LayerOutputs V) :
    (layer.primitive = Primitive.line →
      (createElements stringify sqrtDivPi rctx layer).map (fun o => o.index)
        = ((lineData stringify layer.data).filter
            (fun ids => !((linePathGeom rctx ids layer).2).isEmpty)).map
              (fun ids => ids.headD 0) ∧
      (draw stringify sqrtDivPi rctx layer).map (fun o => o.index)
        = (lineData stringify layer.data).map (fun ids => ids.headD 0)) ∧
    (layer.primitive = Primitive.area →
      (createElements stringify sqrtDivPi rctx layer).map (fun o => o.index)
        = ((lineData stringify layer.data).filter
            (fun ids => !((areaPathGeom rctx ids layer).2).isEmptyGeom)).map
              (fun ids => ids.headD 0) ∧
      (draw stringify sqrtDivPi rctx layer).map (fun o => o.index)
        = (lineData stringify layer.data).map (fun ids => ids.headD 0)) ∧
    ((layer.primitive = Primitive.line ∨ layer.primitive = Primitive.area) →
      (∀ o ∈ createElements stringify sqrtDivPi rctx layer,
        o.attrs = (resolveStyle rctx layer.style).atIndex o.index) ∧
      (∀ o ∈ draw stringify sqrtDivPi rctx layer, ∀ op ∈ o.ops,
        (∀ c a', op = PaintOp.fill c a' →
          layer.style.fillColor = some "$encoding" →
          c = some ((resolveColor rctx).atIndex o.index)) ∧
        (∀ c a', op = PaintOp.stroke c a' →
          layer.style.strokeColor = some "$encoding" →
          c = some ((resolveColor rctx).atIndex o.index)))) := by
  refine ⟨?_, ?_, ?_⟩
  · intro hp
    constructor
    · simp only [createElements, hp]
      exact map_index_filterMap_group _ _ _ _
    · simp only [draw, hp]
      exact map_index_canvasRun_group rctx layer.style _ _
  · intro hp
    constructor
    · simp only [createElements, hp]
      exact map_index_filterMap_group _ _ _ _
    · simp only [draw, hp]
      exact map_index_canvasRun_group rctx layer.style _ _
  · intro hp
    constructor
    · intro o ho
      rcases hp with hp | hp <;>
      · simp only [createElements, hp] at ho
        exact mem_filterMap_group _ _ _ _ o ho
    · intro o ho
      rcases hp with hp | hp <;>
      · simp only [draw, hp, canvasRun] at ho
        exact canvasRunAux_ops rctx layer.style _ _ o ho

/-- Witness for C2 on the concrete rect layer: all three rows have finite
bounds and survive in both backends. -/
theorem claim_C2_nonfinite_rows_dropped_witness :
    (createElements exStringify exSqrt xyCtx rectLayer).map (fun o => o.index)
      = [0, 1, 2] ∧
    (draw exStringify exSqrt xyCtx rectLayer).map (fun o => o.index)
      = [0, 1, 2] := by
  obtain ⟨h1, h2⟩ :=
    (claim_C2_nonfinite_rows_dropped exStringify exSqrt xyCtx rectLayer []).2.2.2.1 rfl
  rw [h1, h2]
  exact ⟨by decide, by decide⟩

/-- Witness for C8 on the concrete rect layer, row 0: the reversed band
bounds `(10, 3)` on both axes yield the normalized rectangle. -/
theorem claim_C8_rect_normalization_witness :
    ∃ o ∈ createElements exStringify exSqrt xyCtx rectLayer, o.index = 0 ∧
      o.prim = RenderPrim.rect (min 10 3) (min 10 3) |3 - 10| |3 - 10| :=
  (claim_C8_rect_normalization exStringify exSqrt xyCtx rectLayer 0 10 3 10 3
    rfl (by decide) (by decide) (by decide)).1

/-- Witness for C9 on the concrete line layer: the immediate-mode backend
emits one path per group, styled at the group heads 0 and 2. -/
theorem claim_C9_group_style_at_first_row_witness :
    (draw exStringify exSqrt lineCtx lineLayer).map (fun o => o.index)
      = [0, 2] := by
  have h :=
    (claim_C9_group_style_at_first_row exStringify exSqrt lineCtx lineLayer).1 rfl
  rw [h.2]
  decide

end EA
